import Mathlib

/-!
# Verification of the Prosthetic-LiDAR-Scanner point-cloud core

Shallow embedding of the point-cloud codec and geometry pipeline of the
repository (format detection, PLY/PCD/XYZ ASCII parsers, limb classifier,
nearest-neighbor mesh builder, OBJ/PLY/STL encoders), together with proofs
of the specified properties.

Modelling conventions:
* JavaScript strings are modelled as `List Char`; the JS numeric type is
  modelled exactly, with finite values as `ℚ` (the idealisation of IEEE
  doubles by exact rationals) and the non-finite values `Infinity` /
  `-Infinity` as explicit constructors; `NaN` is modelled as `none` of an
  `Option`, mirroring the `Number.isNaN` checks in the source.
* Buffers written through typed arrays are modelled as lists of cells; a
  cell is either a concrete byte or one of the four bytes of the IEEE-754
  binary32 encoding of a real scalar (the encoding itself is kept
  abstract; every claim about it is positional).
* `Math.hypot`-based *sorting* is modelled by sorting on squared
  distances: `Real.sqrt` is strictly monotone on nonnegative arguments,
  so the comparison order and all tie-breaks are identical.
-/

namespace LiDAR

/-! ## JS string primitives over `List Char` -/

/-- The characters treated as whitespace by the `\s` regex class and by
`String.prototype.trim` that can actually occur in ASCII point-cloud
files (space, tab, LF, CR, VT, FF, NBSP).  Other Unicode space
separators are elided from the model. -/
def isJsWs (c : Char) : Bool :=
  c = ' ' || c = '\t' || c = '\n' || c = '\r' || c = '\x0b' || c = '\x0c' || c = ' '

/-- A JS string: a list of characters. -/
abbrev Str := List Char

/-- `s.trim()`: strip leading and trailing whitespace. -/
def jsTrim (s : Str) : Str :=
  ((s.dropWhile isJsWs).reverse.dropWhile isJsWs).reverse

/-- Prepend a character to the first line of a line list. -/
def consHead (c : Char) : List Str → List Str
  | l :: ls => (c :: l) :: ls
  | [] => [[c]]

/-- `text.split(/\r?\n/)`: split on newlines, each newline consuming at
most one immediately preceding carriage return. -/
def splitLines : Str → List Str
  | [] => [[]]
  | '\r' :: '\n' :: rest => [] :: splitLines rest
  | '\n' :: rest => [] :: splitLines rest
  | c :: rest => consHead c (splitLines rest)

/-- `s.split(/\s+/)` on an already-trimmed string: the whitespace-separated
tokens.  (On a string with leading whitespace JS would produce a leading
empty token; every call site in the source splits a trimmed string.) -/
def splitWs (s : Str) : List Str :=
  (s.splitOnP isJsWs).filter (fun t => t ≠ [])

/-- ASCII lowercasing, the fragment of `String.prototype.toLowerCase`
exercised by the format keywords (`FIELDS`, `DATA`, `PCD`, ...). -/
def charLower (c : Char) : Char :=
  if 'A' ≤ c ∧ c ≤ 'Z' then Char.ofNat (c.toNat + 32) else c

/-- `s.toLowerCase()` restricted to ASCII letters. -/
def jsLower (s : Str) : Str := s.map charLower

/-- Decimal digit test (`\d`). -/
def isDigitC (c : Char) : Bool := '0' ≤ c && c ≤ '9'

/-! ## `Number(token)` — the JS string-to-number conversion

A token (nonempty, whitespace-free) is converted by the
`StringNumericLiteral` grammar: an optional sign followed by `Infinity`,
a decimal literal (with optional fraction and exponent), or an unsigned
binary/octal/hex literal.  Anything else is `NaN`, modelled as `none`. -/

/-- A finite JS number (idealised as an exact rational) or an infinity. -/
inductive JSVal where
  | fin (q : ℚ)
  | inf
  | ninf
deriving DecidableEq

/-- Digit value in base ≤ 16 (`none` when the character is not a digit
of that base). -/
def digitVal (base : ℕ) (c : Char) : Option ℕ :=
  let v : Option ℕ :=
    if isDigitC c then some (c.toNat - '0'.toNat)
    else if 'a' ≤ c ∧ c ≤ 'f' then some (c.toNat - 'a'.toNat + 10)
    else if 'A' ≤ c ∧ c ≤ 'F' then some (c.toNat - 'A'.toNat + 10)
    else none
  match v with
  | some n => if n < base then some n else none
  | none => none

/-- Parse a nonempty all-digits string in the given base. -/
def digitsToNat (base : ℕ) : Str → Option ℕ
  | [] => none
  | l => l.foldl (fun acc c => match acc, digitVal base c with
      | some a, some d => some (a * base + d)
      | _, _ => none) (some 0)

/-- The exponent part `e`/`E` followed by an optionally signed digit run. -/
def parseExp : Str → Option ℤ
  | 'e' :: rest | 'E' :: rest =>
    match rest with
    | '+' :: ds => (digitsToNat 10 ds).map Int.ofNat
    | '-' :: ds => (digitsToNat 10 ds).map (fun n => -(n : ℤ))
    | ds => (digitsToNat 10 ds).map Int.ofNat
  | _ => none

/-- Split a string at the first occurrence of `c`; `none` when absent. -/
def splitAtChar (c : Char) (s : Str) : Option (Str × Str) :=
  match s.findIdx? (· == c) with
  | some i => some (s.take i, s.drop (i + 1))
  | none => none

/-- An unsigned decimal literal `digits [. digits] [exp]` /
`. digits [exp]` / `digits exp`, as a rational. -/
def parseDecimal (s : Str) : Option ℚ :=
  let core (mant : Str) : Option ℚ :=
    match splitAtChar '.' mant with
    | some (ip, fp) =>
      if ip = [] ∧ fp = [] then none
      else
        let ipv : Option ℕ := if ip = [] then some 0 else digitsToNat 10 ip
        let fpv : Option ℕ := if fp = [] then some 0 else digitsToNat 10 fp
        match ipv, fpv with
        | some i, some f => some ((i : ℚ) + (f : ℚ) / (10 : ℚ) ^ fp.length)
        | _, _ => none
    | none => (digitsToNat 10 mant).map (fun n => (n : ℚ))
  match s.findIdx? (fun c => c == 'e' || c == 'E') with
  | some i =>
    match core (s.take i), parseExp (s.drop i) with
    | some m, some e => some (m * (10 : ℚ) ^ e)
    | _, _ => none
  | none => core s

/-- The signed part of a numeric literal: a sign may precede only
`Infinity` or a decimal literal, never the `0x`/`0o`/`0b` forms. -/
def jsNumberSigned (neg : Bool) (rest : Str) : Option JSVal :=
  if rest = "Infinity".toList then some (if neg then .ninf else .inf)
  else (parseDecimal rest).map (fun q => JSVal.fin (if neg then -q else q))

/-- `Number(tok)` for a nonempty whitespace-free token. -/
def jsNumber (s : Str) : Option JSVal :=
  match s with
  | '+' :: rest => jsNumberSigned false rest
  | '-' :: rest => jsNumberSigned true rest
  | '0' :: 'x' :: ds | '0' :: 'X' :: ds => (digitsToNat 16 ds).map (fun n => .fin n)
  | '0' :: 'o' :: ds | '0' :: 'O' :: ds => (digitsToNat 8 ds).map (fun n => .fin n)
  | '0' :: 'b' :: ds | '0' :: 'B' :: ds => (digitsToNat 2 ds).map (fun n => .fin n)
  | _ => jsNumberSigned false s

/-- `parseInt(tok, 10)`: the longest signed decimal-digit prefix, `NaN`
(`none`) when there is none. -/
def parseIntPrefix (s : Str) : Option ℤ :=
  let go (ds : Str) (neg : Bool) : Option ℤ :=
    let pre := ds.takeWhile isDigitC
    if pre = [] then none
    else (digitsToNat 10 pre).map (fun n => if neg then -(n : ℤ) else (n : ℤ))
  match s with
  | '+' :: rest => go rest false
  | '-' :: rest => go rest true
  | _ => go s false

/-! ## Point-cloud parsers (`LiDARLoader.tsx`)

A parsed point is a JS `[x, y, z]` triple.  A component is `none` when
the source stores `NaN` (PLY rows are not NaN-filtered) or `undefined`
(a PCD field index beyond the numeric-token list). -/

/-- A parsed point as produced by the three parsers. -/
abbrev P3 := Option JSVal × Option JSVal × Option JSVal

/-- PLY header scan (`parsePlyAscii`, header loop): track the last
`element vertex <n>` count, stop after the `end_header` line; returns
the count together with the remaining lines. -/
def plyScanHeader (vc : ℤ) : List Str → ℤ × List Str
  | [] => (vc, [])
  | l :: ls =>
    let t := jsTrim l
    let vc' :=
      if "element vertex".toList.isPrefixOf t
      then (parseIntPrefix ((splitWs t).getD 2 [])).getD 0
      else vc
    if t = "end_header".toList then (vc', ls) else plyScanHeader vc' ls

/-- One PLY data row: first three whitespace tokens parsed as numbers
(no NaN check beyond the token-count test). -/
def plyRow (row : Str) : P3 :=
  let p := (splitWs row).map jsNumber
  (p.getD 0 none, p.getD 1 none, p.getD 2 none)

/-- PLY data loop: read rows until the expected count is consumed or the
lines run out; a blank line is skipped without consuming a count slot
(`c--; continue`), a row with fewer than 3 tokens consumes a slot but
emits nothing. -/
def plyReadRows : ℕ → List Str → List P3
  | 0, _ => []
  | _ + 1, [] => []
  | c + 1, l :: ls =>
    let row := jsTrim l
    if row = [] then plyReadRows (c + 1) ls
    else if 3 ≤ (splitWs row).length then plyRow row :: plyReadRows c ls
    else plyReadRows c ls

/-- The body of `parsePlyAscii` after the `text.split(/\r?\n/)` step:
reject unless the raw first line starts with `ply`, scan the header for
the vertex count, then read that many rows. -/
def parsePlyLines (lines : List Str) : List P3 :=
  if ¬ ("ply".toList.isPrefixOf (lines.headD [])) then []
  else
    let s := plyScanHeader 0 lines.tail
    plyReadRows s.1.toNat s.2

/-- `parsePlyAscii`. -/
def parsePlyAscii (text : Str) : List P3 :=
  parsePlyLines (splitLines text)

/-- PCD header scan (`parsePcdAscii`, first loop): record the tokens
after a case-insensitive `FIELDS` key, stop at a `DATA` key.  Returns
the recorded field list and, when a `DATA` line was found, the lines
after it; when none was found the source leaves `dataStart = 0`, i.e.
the data region is the whole file (`none` here). -/
def pcdScan (fields : List Str) : List Str → List Str × Option (List Str)
  | [] => (fields, none)
  | l :: ls =>
    let t := jsTrim l
    if t = [] then pcdScan fields ls
    else
      let parts := splitWs t
      let key := jsLower (parts.getD 0 [])
      let fields' := if key = "fields".toList then parts.tail else fields
      if key = "data".toList then (fields', some ls) else pcdScan fields' ls

/-- PCD data loop: per non-blank line, parse all numeric tokens
(non-numeric ones dropped), skip the line when fewer than 3 remain, then
select coordinates by the positions of `x`, `y`, `z` in the field list
when all three occur and the list has ≥ 3 entries, else take the first
three values. -/
def pcdDataLines (fields : List Str) : List Str → List P3
  | [] => []
  | l :: ls =>
    let t := jsTrim l
    if t = [] then pcdDataLines fields ls
    else
      let vals := (splitWs t).filterMap jsNumber
      if vals.length < 3 then pcdDataLines fields ls
      else
        let dflt : P3 := (vals.get? 0, vals.get? 1, vals.get? 2)
        let pt : P3 :=
          if 3 ≤ fields.length then
            match fields.findIdx? (· == "x".toList), fields.findIdx? (· == "y".toList),
                fields.findIdx? (· == "z".toList) with
            | some xi, some yi, some zi => (vals.get? xi, vals.get? yi, vals.get? zi)
            | _, _, _ => dflt
          else dflt
        pt :: pcdDataLines fields ls

/-- `parsePcdAscii`: header scan, then the data loop over the data
region. -/
def parsePcdAscii (text : Str) : List P3 :=
  let lines := splitLines text
  match pcdScan [] lines with
  | (fields, some rest) => pcdDataLines fields rest
  | (fields, none) => pcdDataLines fields lines

/-- ASCII letter test (the `/[a-z]/i` regex). -/
def hasAlpha (t : Str) : Bool :=
  t.any (fun c => ('a' ≤ c && c ≤ 'z') || ('A' ≤ c && c ≤ 'Z'))

/-- XYZ fallback loop (inline in `readPointCloudFile`): skip blank
lines, `#` comments and lines whose first token contains a letter;
otherwise collect the numeric tokens and take the first three when at
least three remain. -/
def parseXyzLines : List Str → List P3
  | [] => []
  | l :: ls =>
    let s := jsTrim l
    if s = [] then parseXyzLines ls
    else if s.headD ' ' = '#' ∨ hasAlpha ((splitWs s).getD 0 []) then parseXyzLines ls
    else
      let parts := (splitWs s).filterMap jsNumber
      if 3 ≤ parts.length then
        (parts.get? 0, parts.get? 1, parts.get? 2) :: parseXyzLines ls
      else parseXyzLines ls

/-- The XYZ fallback parser on raw text. -/
def parseXyzFallback (text : Str) : List P3 :=
  parseXyzLines (splitLines text)

/-! ## Format detection (`readPointCloudFile`) -/

/-- `v?\d` at the start of a string (with the one-character backtrack of
`v?`: when the head is `v` but no digit follows, `v` itself would have
to be a digit, which it is not). -/
def vdigitMatch : Str → Bool
  | 'v' :: c :: _ => isDigitC c
  | c :: _ => isDigitC c
  | [] => false

/-- `\s+v?\d` at the start of a string: one whitespace character, then
either the tail pattern or more whitespace. -/
def wsThenVDigit : Str → Bool
  | [] => false
  | c :: rest => isJsWs c && (vdigitMatch rest || wsThenVDigit rest)

/-- The regex `pcd\s+v?\d` anchored at the start of the string. -/
def pcdPatternAt : Str → Bool
  | 'p' :: 'c' :: 'd' :: rest => wsThenVDigit rest
  | _ => false

/-- `/pcd\s+v?\d/.test(s)`: the anchored pattern at some position. -/
def pcdSearch : Str → Bool
  | [] => false
  | c :: rest => pcdPatternAt (c :: rest) || pcdSearch rest

/-- The three recognised input formats. -/
inductive FormatKind where
  | PLY
  | PCD
  | XYZFallback
deriving DecidableEq

/-- The detection rule of `readPointCloudFile`: `ply` prefix of the
trimmed text selects PLY; else a lower-cased `# .pcd` prefix or a
`pcd\s+v?\d` match within the first 200 characters selects PCD; else
the XYZ fallback. -/
def detectFormat (text : Str) : FormatKind :=
  let t := jsTrim text
  if "ply".toList.isPrefixOf t then .PLY
  else if "# .pcd".toList.isPrefixOf (jsLower t) || pcdSearch (jsLower (t.take 200))
  then .PCD
  else .XYZFallback

/-- The parser invoked for each detected format. -/
def parseByKind : FormatKind → Str → List P3
  | .PLY => parsePlyAscii
  | .PCD => parsePcdAscii
  | .XYZFallback => parseXyzFallback

/-- The declared failure modes of the loading pipeline (§7). -/
inductive LoadError where
  | FormatUnrecognized
  | ParseEmpty
  | NoPointCloudLoaded
deriving DecidableEq

/-- `readPointCloudFile`: detection followed by the selected parser;
each branch reports the empty-result error when its parser produced no
points and otherwise hands the points on. -/
def readPointCloudFile (text : Str) : Except LoadError (List P3) :=
  let t := jsTrim text
  if "ply".toList.isPrefixOf t then
    let points := parsePlyAscii text
    if points = [] then .error .ParseEmpty else .ok points
  else if "# .pcd".toList.isPrefixOf (jsLower t) || pcdSearch (jsLower (t.take 200))
  then
    let points := parsePcdAscii text
    if points = [] then .error .ParseEmpty else .ok points
  else
    let pts := parseXyzFallback text
    if pts = [] then .error .ParseEmpty else .ok pts

/-! ## Geometry, mesh builder and encoders (`exporters.ts`)

Exported geometry works on accepted clouds of finite coordinates,
idealised as exact rationals. -/

/-- A 3-D point `[x, y, z]`. -/
abbrev Pt := ℚ × ℚ × ℚ

/-- A triangle `[v1, v2, v3]`. -/
abbrev Tri := Pt × Pt × Pt

/-- Squared Euclidean distance.  The source sorts by
`Math.hypot(…) = √sqDist`; since `√` is strictly monotone on
nonnegative arguments, sorting by `sqDist` produces the identical order
(including every tie, hence identical stable-sort output). -/
def sqDist (q p : Pt) : ℚ :=
  (q.1 - p.1) ^ 2 + (q.2.1 - p.2.1) ^ 2 + (q.2.2 - p.2.2) ^ 2

/-- JS array read `points[i]` (every read in the mesh loop is
in-bounds, so the default is never observed). -/
def pget (pts : List Pt) (i : ℕ) : Pt := pts.getD i (0, 0, 0)

/-- The comparator `(a, b) => a.dist - b.dist` as an order on
(index, dist) pairs. -/
def distLE (a b : ℕ × ℚ) : Prop := a.2 ≤ b.2

instance : DecidableRel distLE := fun a b => inferInstanceAs (Decidable (a.2 ≤ b.2))

instance : IsTotal (ℕ × ℚ) distLE := ⟨fun a b => le_total a.2 b.2⟩

instance : IsTrans (ℕ × ℚ) distLE := ⟨fun _ _ _ h h' => le_trans h h'⟩

/-- The body of the mesh loop for source index `i`: distances to all
points, a stable ascending sort (JS `Array.prototype.sort` is stable;
ties keep original index order), the neighbor window
`slice(1, min(maxNeighbors + 1, length))`, and one triangle per
consecutive neighbor pair. -/
def meshFan (pts : List Pt) (maxNeighbors : ℕ) (i : ℕ) : List Tri :=
  let p := pget pts i
  let distances := pts.enum.map (fun jq => (jq.1, sqDist jq.2 p))
  let sorted := distances.insertionSort distLE
  let neighbors := (sorted.take (min (maxNeighbors + 1) sorted.length)).drop 1
  (neighbors.zip neighbors.tail).map (fun ab => (p, pget pts ab.1.1, pget pts ab.2.1))

/-- `createSimpleMeshFromPoints`: empty below 3 points, else the
concatenation of the per-point neighbor fans in source order. -/
def createSimpleMeshFromPoints (pts : List Pt) (maxNeighbors : ℕ := 12) : List Tri :=
  if pts.length < 3 then []
  else (List.range pts.length).flatMap (meshFan pts maxNeighbors)

/-- `computeNormal`: normalised cross product of the edge vectors, with
the fixed fallback `(0, 0, 1)` for a zero-length cross product. -/
noncomputable def computeNormal (v1 v2 v3 : Pt) : ℝ × ℝ × ℝ :=
  let e1 : ℝ × ℝ × ℝ := ((v2.1 : ℝ) - (v1.1 : ℝ), (v2.2.1 : ℝ) - (v1.2.1 : ℝ), (v2.2.2 : ℝ) - (v1.2.2 : ℝ))
  let e2 : ℝ × ℝ × ℝ := ((v3.1 : ℝ) - (v1.1 : ℝ), (v3.2.1 : ℝ) - (v1.2.1 : ℝ), (v3.2.2 : ℝ) - (v1.2.2 : ℝ))
  let n : ℝ × ℝ × ℝ :=
    (e1.2.1 * e2.2.2 - e1.2.2 * e2.2.1,
     e1.2.2 * e2.1 - e1.1 * e2.2.2,
     e1.1 * e2.2.1 - e1.2.1 * e2.1)
  let len := Real.sqrt (n.1 ^ 2 + n.2.1 ^ 2 + n.2.2 ^ 2)
  if 0 < len then (n.1 / len, n.2.1 / len, n.2.2 / len) else (0, 0, 1)

/-! ### Binary STL writer

The `ArrayBuffer` is modelled as a list of cells: a concrete byte, or
one of the four bytes of the IEEE-754 binary32 little-endian encoding of
a real scalar (`f32 v i` = byte `i` of the encoding of `v`; the claims
about the layout are positional, so the bit-level encoding stays
abstract). -/

/-- One byte of the STL buffer. -/
inductive Cell where
  | byte (b : ℕ)
  | f32 (v : ℝ) (i : Fin 4)

/-- A JS runtime exception surfaced by the writer. -/
inductive JsError where
  | rangeError
deriving DecidableEq

/-- The all-zero freshly allocated buffer (plus the zeroed 80-byte
header copied over it). -/
def zeros (n : ℕ) : List Cell := List.replicate n (.byte 0)

/-- `f32[off / 4] = v` for a byte offset `off`: when `off` is not a
multiple of 4 the JS index `off / 4` is not an integer, and a typed
array write at a non-integer index is a silent no-op. -/
noncomputable def writeF32 (buf : List Cell) (off : ℕ) (v : ℝ) : List Cell :=
  if off % 4 = 0 then
    ((((buf.set off (.f32 v 0)).set (off + 1) (.f32 v 1)).set
        (off + 2) (.f32 v 2)).set (off + 3) (.f32 v 3))
  else buf

/-- `new Uint32Array(buffer, off, 1)[0] = n` (little-endian; the value
is wrapped to 32 bits by `ToUint32`). -/
def writeU32 (buf : List Cell) (off : ℕ) (n : ℕ) : List Cell :=
  ((((buf.set off (.byte (n % 2 ^ 8))).set (off + 1) (.byte (n / 2 ^ 8 % 2 ^ 8))).set
      (off + 2) (.byte (n / 2 ^ 16 % 2 ^ 8))).set (off + 3) (.byte (n / 2 ^ 24 % 2 ^ 8)))

/-- `new Uint16Array(buffer, off, 1)[0] = 0` (the attribute byte count;
`off` is always even here, so the view construction succeeds). -/
def writeU16Zero (buf : List Cell) (off : ℕ) : List Cell :=
  (buf.set off (.byte 0)).set (off + 1) (.byte 0)

/-- One iteration of the triangle loop at byte offset `off`: 12 bytes of
normal, 36 bytes of vertices `v1, v2, v3`, 2 bytes of zero attribute
count. -/
noncomputable def writeTriangle (buf : List Cell) (off : ℕ) (t : Tri) : List Cell :=
  let n := computeNormal t.1 t.2.1 t.2.2
  let b0 := writeF32 buf off n.1
  let b1 := writeF32 b0 (off + 4) n.2.1
  let b2 := writeF32 b1 (off + 8) n.2.2
  let b3 := writeF32 b2 (off + 12) (t.1.1 : ℝ)
  let b4 := writeF32 b3 (off + 16) (t.1.2.1 : ℝ)
  let b5 := writeF32 b4 (off + 20) (t.1.2.2 : ℝ)
  let b6 := writeF32 b5 (off + 24) (t.2.1.1 : ℝ)
  let b7 := writeF32 b6 (off + 28) (t.2.1.2.1 : ℝ)
  let b8 := writeF32 b7 (off + 32) (t.2.1.2.2 : ℝ)
  let b9 := writeF32 b8 (off + 36) (t.2.2.1 : ℝ)
  let b10 := writeF32 b9 (off + 40) (t.2.2.2.1 : ℝ)
  let b11 := writeF32 b10 (off + 44) (t.2.2.2.2 : ℝ)
  writeU16Zero b11 (off + 48)

/-- The triangle loop: offsets `84, 134, 184, …` stepping by 50. -/
noncomputable def stlFold (buf : List Cell) (off : ℕ) : List Tri → List Cell
  | [] => buf
  | t :: ts => stlFold (writeTriangle buf off t) (off + 50) ts

/-- `exportTrianglesToSTL`: allocate `80 + 4 + 50·T` zero bytes, view
them as a `Float32Array` — which throws a `RangeError` whenever the
byte length is not a multiple of 4, i.e. whenever `T` is odd — then
write the little-endian triangle count at byte 80 and each triangle at
`84 + 50·k`. -/
noncomputable def exportTrianglesToSTL (triangles : List Tri) : Except JsError (List Cell) :=
  let size := 80 + 4 + 50 * triangles.length
  if size % 4 ≠ 0 then .error .rangeError
  else
    let buf := zeros size
    let buf := writeU32 buf 80 triangles.length
    .ok (stlFold buf 84 triangles)

/-! ### ASCII encoders -/

/-- The decimal digit character for `d < 10`. -/
def digitChar10 (d : ℕ) : Char := Char.ofNat ('0'.toNat + d)

/-- The usual decimal rendering of a natural number (JS `${n}` /
`String(n)` for a nonnegative integer). -/
def natToDec (n : ℕ) : Str :=
  if _h : n < 10 then [digitChar10 n]
  else natToDec (n / 10) ++ [digitChar10 (n % 10)]
decreasing_by exact Nat.div_lt_self (by omega) (by omega)

/-- `x.toFixed(6)` for a finite value, converted back by `Number(…)`
only in spirit: the decimal string itself.  Per the `toFixed`
specification the sign is taken from the value and the magnitude is the
integer `n` minimising `|n / 10⁶ - |x||`, ties to the larger `n`. -/
def toFixed6 (q : ℚ) : Str :=
  let m : ℕ := (⌊|q| * 1000000 + 1 / 2⌋).toNat
  let fpd := natToDec (m % 1000000)
  (if q < 0 then ['-'] else []) ++ natToDec (m / 1000000) ++
    '.' :: (List.replicate (6 - fpd.length) '0' ++ fpd)

/-- `exportPointCloudToPLY`: the fixed header, then one
space-separated 6-decimal line per point in insertion order. -/
def exportPointCloudToPLY (pts : List Pt) : Str :=
  "ply\nformat ascii 1.0\nelement vertex ".toList ++
    natToDec pts.length ++
    "\nproperty float x\nproperty float y\nproperty float z\nend_header\n".toList ++
    pts.flatMap (fun p =>
      toFixed6 p.1 ++ ' ' :: toFixed6 p.2.1 ++ ' ' :: toFixed6 p.2.2 ++ ['\n'])

/-! ## Limb classifier (`limbClassifier.ts`) -/

/-- The classification result.  `confidence` is real-valued because of
the `log10` density boost. -/
structure LimbClass where
  label : String
  confidence : ℝ
  bboxMeters : Option (ℚ × ℚ × ℚ)
  points : ℕ

/-- `Number(x.toFixed(d))`: sign of the value times the half-up rounded
magnitude, scaled back. -/
noncomputable def jsToFixedNum (d : ℕ) (x : ℝ) : ℝ :=
  (if x < 0 then -1 else 1) * (⌊|x| * 10 ^ d + 1 / 2⌋ : ℝ) / 10 ^ d

/-- `Number(q.toFixed(3))` on a rational bounding-box entry. -/
def round3 (q : ℚ) : ℚ :=
  (if q < 0 then -1 else 1) * (⌊|q| * 1000 + 1 / 2⌋ : ℚ) / 1000

/-- The ordered threshold table: label and base confidence from the
length in meters, first match wins. -/
def limbThresholds (lengthM : ℚ) : String × ℚ :=
  if lengthM < 6 / 100 then ("finger", 45 / 100)
  else if lengthM < 25 / 100 then ("hand", 6 / 10)
  else if lengthM < 55 / 100 then ("forearm", 8 / 10)
  else if lengthM < 9 / 10 then ("upper arm", 6 / 10)
  else ("leg", 7 / 10)

/-- Axis-aligned extents `(dx, dy, dz)` of a nonempty cloud.  The
source seeds the min/max scan with `±Infinity`, so the first point
always replaces the seed; this is the head-seeded fold. -/
def bboxExtents (p : Pt) (rest : List Pt) : ℚ × ℚ × ℚ :=
  let minX := rest.foldl (fun m q => if q.1 < m then q.1 else m) p.1
  let maxX := rest.foldl (fun m q => if m < q.1 then q.1 else m) p.1
  let minY := rest.foldl (fun m q => if q.2.1 < m then q.2.1 else m) p.2.1
  let maxY := rest.foldl (fun m q => if m < q.2.1 then q.2.1 else m) p.2.1
  let minZ := rest.foldl (fun m q => if q.2.2 < m then q.2.2 else m) p.2.2
  let maxZ := rest.foldl (fun m q => if m < q.2.2 then q.2.2 else m) p.2.2
  (maxX - minX, maxY - minY, maxZ - minZ)

/-- The shape adjustment: the two ratio tests run in sequence on the
same ratio, each clipping at 1 (`Math.min`). -/
def ratioAdjust (base widthM lengthM : ℚ) : ℚ :=
  if 0 < lengthM then
    let ratio := widthM / lengthM
    let c1 := if ratio < 25 / 100 then min 1 (base + 15 / 100) else base
    if 6 / 10 < ratio then min 1 (c1 - 2 / 10) else c1
  else base

/-- `classifyPointCloud`. -/
noncomputable def classifyPointCloud (pts : List Pt) : LimbClass :=
  match pts with
  | [] => { label := "unknown", confidence := 0, bboxMeters := none, points := 0 }
  | p :: rest =>
    let e := bboxExtents p rest
    let longest := max e.1 (max e.2.1 e.2.2)
    let scale : ℚ := if 5 < longest then 1000 else 1
    let lengthM := longest / scale
    let widthM := min e.1 (min e.2.1 e.2.2) / scale
    let depthM := ((List.insertionSort (· ≤ ·) [e.1, e.2.1, e.2.2]).getD 1 0) / scale
    let base := limbThresholds lengthM
    let conf1 := ratioAdjust base.2 widthM lengthM
    let densityBoost : ℝ := min (15 / 100) (Real.logb 10 (max 1 (pts.length : ℝ)) / 10)
    let conf : ℝ := min 1 ((conf1 : ℝ) + densityBoost)
    { label := base.1
      confidence := jsToFixedNum 2 conf
      bboxMeters := some (round3 lengthM, round3 widthM, round3 depthM)
      points := pts.length }

/-! ## Spec-side notions used by the theorem statements -/

/-- A well-formed PLY data row: non-blank, at least three whitespace
tokens, and the first three parse as finite numbers. -/
def WellFormedRow (row : Str) : Prop :=
  jsTrim row ≠ [] ∧ 3 ≤ (splitWs (jsTrim row)).length ∧
    ∀ k < 3, ∃ q : ℚ, ((splitWs (jsTrim row)).map jsNumber).getD k none = some (.fin q)

/-- `Blanks body rows`: `body` is `rows` with blank lines (lines that
trim to nothing) interspersed. -/
inductive Blanks : List Str → List Str → Prop where
  | nil : Blanks [] []
  | blank {b body rows} : jsTrim b = [] → Blanks body rows → Blanks (b :: body) rows
  | row {r body rows} : jsTrim r ≠ [] → Blanks body rows → Blanks (r :: body) (r :: rows)

/-- Declarative reading of the regex `pcd\s+v?\d`: somewhere in the
string, the letters `pcd`, then at least one whitespace character, then
an optional `v`, then a digit. -/
def PcdPattern (s : Str) : Prop :=
  ∃ a ws v d b, s = a ++ ('p' :: 'c' :: 'd' :: ws) ++ v ++ d :: b ∧
    ws ≠ [] ∧ (∀ c ∈ ws, isJsWs c) ∧ (v = [] ∨ v = ['v']) ∧ isDigitC d

/-- The 50-byte triangle block the claim (and §4.5 of the spec)
prescribes: four bytes per scalar of the normal, then of `v1`, `v2`,
`v3`, then two zero attribute bytes.  Spec-side definition, used to
compare the claimed layout with what the writer produces. -/
noncomputable def stlClaimTriangleBlock (t : Tri) : List Cell :=
  let f4 : ℝ → List Cell := fun v => [.f32 v 0, .f32 v 1, .f32 v 2, .f32 v 3]
  let n := computeNormal t.1 t.2.1 t.2.2
  f4 n.1 ++ f4 n.2.1 ++ f4 n.2.2 ++
    f4 (t.1.1 : ℝ) ++ f4 (t.1.2.1 : ℝ) ++ f4 (t.1.2.2 : ℝ) ++
    f4 (t.2.1.1 : ℝ) ++ f4 (t.2.1.2.1 : ℝ) ++ f4 (t.2.1.2.2 : ℝ) ++
    f4 (t.2.2.1 : ℝ) ++ f4 (t.2.2.2.1 : ℝ) ++ f4 (t.2.2.2.2 : ℝ) ++
    [.byte 0, .byte 0]

/-! # Theorems

General lemmas first, then one theorem per claim (with its witness or
counterexample where required). -/

/-! ## Mesh builder lemmas -/

theorem sqDist_self (p : Pt) : sqDist p p = 0 := by simp [sqDist]

theorem sqDist_nonneg' (q p : Pt) : 0 ≤ sqDist q p := by
  unfold sqDist; positivity

theorem sqDist_eq_zero {q p : Pt} (h : sqDist q p = 0) : q = p := by
  unfold sqDist at h
  have h1 : q.1 = p.1 := by
    nlinarith [sq_nonneg (q.1 - p.1), sq_nonneg (q.2.1 - p.2.1), sq_nonneg (q.2.2 - p.2.2)]
  have h2 : q.2.1 = p.2.1 := by
    nlinarith [sq_nonneg (q.1 - p.1), sq_nonneg (q.2.1 - p.2.1), sq_nonneg (q.2.2 - p.2.2)]
  have h3 : q.2.2 = p.2.2 := by
    nlinarith [sq_nonneg (q.1 - p.1), sq_nonneg (q.2.1 - p.2.1), sq_nonneg (q.2.2 - p.2.2)]
  exact Prod.ext h1 (Prod.ext h2 h3)

/-- On a 3-point cloud every fan is a single triangle with the source
point as apex, and — because the point at sorted position 0 is at
squared distance 0 from the apex, hence equal to it — that triangle
contains all three points as vertex values. -/
lemma meshFan3 (x0 x1 x2 : Pt) (i : ℕ) (hi : i < 3) :
    ∃ u v : ℕ × ℚ,
      meshFan [x0, x1, x2] 12 i =
        [(pget [x0, x1, x2] i, pget [x0, x1, x2] u.1, pget [x0, x1, x2] v.1)] ∧
      ∀ q ∈ [x0, x1, x2],
        q ∈ [pget [x0, x1, x2] i, pget [x0, x1, x2] u.1, pget [x0, x1, x2] v.1] := by
  have hperm0 := List.perm_insertionSort distLE
    (([x0, x1, x2].enum.map (fun jq => (jq.1, sqDist jq.2 (pget [x0, x1, x2] i)))))
  have hlen3 : ((([x0, x1, x2].enum.map
      (fun jq => (jq.1, sqDist jq.2 (pget [x0, x1, x2] i))))).insertionSort distLE).length = 3 := by
    rw [hperm0.length_eq]; simp
  obtain ⟨a, b, c, hS⟩ := List.length_eq_three.mp hlen3
  have hLc : ([x0, x1, x2].enum.map (fun jq => (jq.1, sqDist jq.2 (pget [x0, x1, x2] i)))) =
      [(0, sqDist x0 (pget [x0, x1, x2] i)), (1, sqDist x1 (pget [x0, x1, x2] i)),
        (2, sqDist x2 (pget [x0, x1, x2] i))] := by
    simp [List.enum, List.enumFrom]
  have hperm : List.Perm [a, b, c]
      (([x0, x1, x2].enum.map (fun jq => (jq.1, sqDist jq.2 (pget [x0, x1, x2] i))))) :=
    hS ▸ hperm0
  have hsorted : List.Sorted distLE [a, b, c] := hS ▸ List.sorted_insertionSort distLE _
  have hfan : meshFan [x0, x1, x2] 12 i =
      [(pget [x0, x1, x2] i, pget [x0, x1, x2] b.1, pget [x0, x1, x2] c.1)] := by
    simp only [meshFan, hS]
    rfl
  refine ⟨b, c, hfan, ?_⟩
  have h1 := hperm.map Prod.fst
  rw [hLc] at h1
  simp only [List.map_cons, List.map_nil] at h1
  have hmem : ∀ j : ℕ, j < 3 → j = a.1 ∨ j = b.1 ∨ j = c.1 := by
    intro j hj
    have hj' : j ∈ [a.1, b.1, c.1] := h1.mem_iff.mpr (by interval_cases j <;> simp)
    simpa using hj'
  have hsa : distLE a b ∧ distLE a c := by
    rw [List.sorted_cons] at hsorted
    exact ⟨hsorted.1 b (by simp), hsorted.1 c (by simp)⟩
  have hi0 : ((i, (0 : ℚ)) ∈ ([a, b, c] : List (ℕ × ℚ))) := by
    rw [hperm.mem_iff, hLc]
    interval_cases i <;> simp [pget, sqDist_self]
  have ha2 : a.2 ≤ 0 := by
    rcases List.mem_cons.mp hi0 with h | h'
    · rw [← h]
    · rcases List.mem_cons.mp h' with h | h''
      · have := hsa.1
        rw [← h] at this
        exact this
      · have := hsa.2
        rw [← (List.mem_singleton.mp h'')] at this
        exact this
  have haL := hperm.subset (List.mem_cons_self a [b, c])
  rw [hLc] at haL
  have ha2' : a.2 = sqDist (pget [x0, x1, x2] a.1) (pget [x0, x1, x2] i) := by
    rcases List.mem_cons.mp haL with h | h'
    · rw [h]; simp [pget]
    · rcases List.mem_cons.mp h' with h | h''
      · rw [h]; simp [pget]
      · rw [List.mem_singleton.mp h'']; simp [pget]
  have hkey : pget [x0, x1, x2] a.1 = pget [x0, x1, x2] i :=
    sqDist_eq_zero (le_antisymm (ha2' ▸ ha2) (sqDist_nonneg' _ _))
  have main : ∀ j : ℕ, j < 3 →
      pget [x0, x1, x2] j ∈
        [pget [x0, x1, x2] i, pget [x0, x1, x2] b.1, pget [x0, x1, x2] c.1] := by
    intro j hj
    rcases hmem j hj with h | h | h
    · rw [h, hkey]; exact List.mem_cons_self _ _
    · rw [h]; simp
    · rw [h]; simp
  intro q hq
  rcases List.mem_cons.mp hq with rfl | hq'
  · have := main 0 (by omega); simpa [pget] using this
  rcases List.mem_cons.mp hq' with rfl | hq''
  · have := main 1 (by omega); simpa [pget] using this
  · rw [List.mem_singleton.mp hq'']
    have := main 2 (by omega); simpa [pget] using this

lemma meshFan_length (pts : List Pt) (m i : ℕ) :
    (meshFan pts m i).length = min (m + 1) pts.length - 1 - 1 := by
  simp [meshFan, (List.perm_insertionSort distLE _).length_eq]

lemma mesh_length (pts : List Pt) (m : ℕ) :
    (createSimpleMeshFromPoints pts m).length =
      if pts.length < 3 then 0 else pts.length * (min (m + 1) pts.length - 2) := by
  unfold createSimpleMeshFromPoints
  split
  · rfl
  · rw [List.length_flatMap]
    have hc : List.map (List.length ∘ meshFan pts m) (List.range pts.length) =
        List.replicate pts.length (min (m + 1) pts.length - 2) := by
      refine List.eq_replicate_iff.mpr ⟨by simp, ?_⟩
      intro b hb
      simp only [List.mem_map, Function.comp] at hb
      obtain ⟨j, _, rfl⟩ := hb
      rw [meshFan_length]
      omega
    rw [hc, List.sum_replicate, smul_eq_mul]

/-! ## Claim C1 -/

/-- C1: evaluation of the STL writer at the failing inputs.  For one
triangle (the claim's `T = 1` case) the writer throws a `RangeError`
(`new Float32Array(buffer)` over a 134-byte buffer) and no buffer is
produced.  For two triangles the buffer has the claimed size, zero
header and little-endian count, but bytes 134..181 — the second
triangle's normal and vertex fields — remain zero, because
`f32[offset / 4]` with `offset = 134` indexes at the non-integer 33.5,
a silent no-op; the claimed block for that triangle starts with a float
cell instead. -/
theorem claim_C1_stl_bug :
    exportTrianglesToSTL
        [(((0 : ℚ), (0 : ℚ), (0 : ℚ)), ((1 : ℚ), (0 : ℚ), (0 : ℚ)), ((0 : ℚ), (1 : ℚ), (0 : ℚ)))]
      = .error .rangeError ∧
    (exportTrianglesToSTL
        [(((0 : ℚ), (0 : ℚ), (0 : ℚ)), ((1 : ℚ), (0 : ℚ), (0 : ℚ)), ((0 : ℚ), (1 : ℚ), (0 : ℚ))),
         (((2 : ℚ), (0 : ℚ), (0 : ℚ)), ((3 : ℚ), (0 : ℚ), (0 : ℚ)), ((2 : ℚ), (1 : ℚ), (0 : ℚ)))]).map
        (fun b => (b.length, b.take 80, (b.drop 80).take 4, (b.drop 134).take 48))
      = .ok (184, zeros 80, [.byte 2, .byte 0, .byte 0, .byte 0], zeros 48) ∧
    (zeros 48 ≠
      (stlClaimTriangleBlock
        (((2 : ℚ), (0 : ℚ), (0 : ℚ)), ((3 : ℚ), (0 : ℚ), (0 : ℚ)),
          ((2 : ℚ), (1 : ℚ), (0 : ℚ)))).take 48) := by
  refine ⟨by with_unfolding_all rfl, by with_unfolding_all rfl, ?_⟩
  intro h
  have h0 := congrArg (fun l => List.getD l 0 (Cell.byte 7)) h
  simp [zeros, stlClaimTriangleBlock] at h0

/-! ## Claim C10 -/

/-- C10: for every cloud of `n` points and every `maxNeighbors = m ≥ 1`
the mesh has exactly `n * (min m (n-1) - 1)` triangles when `n ≥ 3` and
none otherwise; in particular the default `m = 12` yields 3 triangles
on 3 points and `11n` triangles on `n ≥ 13` points. -/
theorem claim_C10_mesh_triangle_count (pts : List Pt) (m : ℕ) (hm : 1 ≤ m) :
    (createSimpleMeshFromPoints pts m).length =
      (if pts.length < 3 then 0 else pts.length * (min m (pts.length - 1) - 1)) ∧
    (pts.length = 3 → (createSimpleMeshFromPoints pts 12).length = 3) ∧
    (13 ≤ pts.length → (createSimpleMeshFromPoints pts 12).length = 11 * pts.length) := by
  refine ⟨?_, ?_, ?_⟩
  · rw [mesh_length]
    by_cases h : pts.length < 3
    · simp [h]
    · simp only [if_neg h]
      exact congrArg (pts.length * ·) (by omega)
  · intro h3; rw [mesh_length]; simp [h3]
  · intro h13; rw [mesh_length]
    rw [if_neg (by omega)]
    have : min (12 + 1) pts.length = 13 := by omega
    rw [this]
    ring

/-- C10 witness: the count theorem at 3 concrete points and the default
neighbor bound. -/
theorem claim_C10_mesh_triangle_count_witness :
    (createSimpleMeshFromPoints [((0 : ℚ), (0 : ℚ), (0 : ℚ)), (1, 0, 0), (0, 1, 0)] 12).length
      = 3 := by
  have h := claim_C10_mesh_triangle_count
    [((0 : ℚ), (0 : ℚ), (0 : ℚ)), (1, 0, 0), (0, 1, 0)] 12 (by norm_num)
  exact h.2.1 rfl

/-! ## Claim C3 -/

/-- C3 counterexample: on 3 points the mesh has 3 triangles (one fan
per point), not 1. -/
theorem claim_C3_counterexample :
    (createSimpleMeshFromPoints [((0 : ℚ), (0 : ℚ), (0 : ℚ)), (1, 0, 0), (0, 1, 0)] 12).length
      ≠ 1 := by
  rw [mesh_length]
  norm_num

/-- C3 amended: the mesh builder on exactly 3 points with the default
`maxNeighbors = 12` returns a mesh of exactly 3 triangles, each of
which contains all 3 points. -/
theorem claim_C3_three_point_mesh (x0 x1 x2 : Pt) :
    (createSimpleMeshFromPoints [x0, x1, x2] 12).length = 3 ∧
    ∀ t ∈ createSimpleMeshFromPoints [x0, x1, x2] 12,
      x0 ∈ [t.1, t.2.1, t.2.2] ∧ x1 ∈ [t.1, t.2.1, t.2.2] ∧ x2 ∈ [t.1, t.2.1, t.2.2] := by
  constructor
  · rw [mesh_length]; simp
  · intro t ht
    have hm : createSimpleMeshFromPoints [x0, x1, x2] 12 =
        meshFan [x0, x1, x2] 12 0 ++ meshFan [x0, x1, x2] 12 1 ++ meshFan [x0, x1, x2] 12 2 := by
      simp [createSimpleMeshFromPoints, List.range_succ]
    rw [hm] at ht
    have key : ∀ i : ℕ, i < 3 → t ∈ meshFan [x0, x1, x2] 12 i →
        x0 ∈ [t.1, t.2.1, t.2.2] ∧ x1 ∈ [t.1, t.2.1, t.2.2] ∧ x2 ∈ [t.1, t.2.1, t.2.2] := by
      intro i hi hti
      obtain ⟨u, v, hfan, hall⟩ := meshFan3 x0 x1 x2 i hi
      rw [hfan] at hti
      rcases List.mem_singleton.mp hti with rfl
      exact ⟨by simpa using hall x0 (by simp), by simpa using hall x1 (by simp),
        by simpa using hall x2 (by simp)⟩
    rcases List.mem_append.mp ht with h | h
    · rcases List.mem_append.mp h with h' | h'
      · exact key 0 (by omega) h'
      · exact key 1 (by omega) h'
    · exact key 2 (by omega) h

/-! ## Claim C2 -/

lemma blanks_refl (rows : List Str) (h : ∀ r ∈ rows, jsTrim r ≠ []) : Blanks rows rows := by
  induction rows with
  | nil => exact .nil
  | cons r rs ih =>
    exact .row (h r (by simp)) (ih (fun x hx => h x (by simp [hx])))

/-- The PLY data loop consumes exactly the non-blank rows: on a body of
well-formed rows with blanks interspersed, fuel `rows.length` reads
precisely the rows, in order. -/
lemma plyReadRows_blanks (body rows : List Str) (h : Blanks body rows)
    (hw : ∀ r ∈ rows, WellFormedRow r) :
    plyReadRows rows.length body = rows.map (fun r => plyRow (jsTrim r)) := by
  induction h with
  | nil => rfl
  | @blank b body' rows' hb _ ih =>
    rcases hl : rows'.length with _ | n
    · rw [List.length_eq_zero.mp hl]
      rfl
    · have step : plyReadRows (n + 1) (b :: body') = plyReadRows (n + 1) body' := by
        simp only [plyReadRows, hb, reduceIte]
      rw [step]
      have hih := ih hw
      rw [hl] at hih
      exact hih
  | @row r body' rows' hr _ ih =>
    have hwr := hw r (by simp)
    show plyReadRows (rows'.length + 1) (r :: body') = _
    simp only [plyReadRows, hr, reduceIte, if_pos hwr.2.1]
    rw [List.map_cons, ih (fun x hx => hw x (by simp [hx]))]

/-- The header scan stops at the first `end_header` line, so the
declared count is independent of what follows it. -/
lemma plyScanHeader_body_invariant (hdr : List Str) (vc N : ℤ) (body body' : List Str)
    (h : plyScanHeader vc (hdr ++ "end_header".toList :: body) = (N, body)) :
    plyScanHeader vc (hdr ++ "end_header".toList :: body') = (N, body') := by
  induction hdr generalizing vc with
  | nil =>
    have he : jsTrim ("end_header".toList) = "end_header".toList := by decide
    have hev : ("element vertex".toList.isPrefixOf ("end_header".toList)) = false := by decide
    simp only [List.nil_append, plyScanHeader, he, hev, Bool.false_eq_true, reduceIte] at h ⊢
    rw [(Prod.mk.injEq _ _ _ _).mp h |>.1]
  | cons l hdr ih =>
    simp only [List.cons_append, plyScanHeader] at h ⊢
    by_cases hl : jsTrim l = "end_header".toList
    · rw [hl] at h ⊢
      simp only [reduceIte] at h
      have := congrArg (fun p => p.2.length) h
      simp at this
      omega
    · simp only [if_neg hl] at h ⊢
      exact ih _ h

/-- C2: on a valid PLY input — first line starting `ply`, a header
declaring vertex count `N`, a body of `N` well-formed rows with blank
lines interspersed — the parser returns exactly the `N` rows' literal
first-three coordinates, in file order, and the same points as the
blank-free body. -/
theorem claim_C2_ply_parsing (first : Str) (hdr body rows : List Str) (N : ℕ)
    (hfirst : "ply".toList.isPrefixOf first = true)
    (hhdr : plyScanHeader 0 (hdr ++ "end_header".toList :: body) = ((N : ℤ), body))
    (hbl : Blanks body rows) (hN : rows.length = N)
    (hw : ∀ r ∈ rows, WellFormedRow r) :
    parsePlyLines (first :: (hdr ++ "end_header".toList :: body))
        = rows.map (fun r => plyRow (jsTrim r)) ∧
      parsePlyLines (first :: (hdr ++ "end_header".toList :: rows))
        = rows.map (fun r => plyRow (jsTrim r)) ∧
      (rows.map (fun r => plyRow (jsTrim r))).length = N ∧
      ∀ r ∈ rows, ∃ qx qy qz : ℚ,
        plyRow (jsTrim r) = (some (.fin qx), some (.fin qy), some (.fin qz)) := by
  have hrows : ∀ body' : List Str,
      plyScanHeader 0 (hdr ++ "end_header".toList :: body') = ((N : ℤ), body') →
      Blanks body' rows →
      parsePlyLines (first :: (hdr ++ "end_header".toList :: body'))
        = rows.map (fun r => plyRow (jsTrim r)) := by
    intro body' hhdr' hbl'
    simp only [parsePlyLines, List.headD_cons, hfirst, not_true_eq_false, reduceIte,
      List.tail_cons, hhdr', Int.toNat_natCast]
    rw [← hN]
    exact plyReadRows_blanks body' rows hbl' hw
  refine ⟨hrows body hhdr hbl, ?_, by simp [hN], ?_⟩
  · exact hrows rows (plyScanHeader_body_invariant hdr 0 N body rows hhdr)
      (blanks_refl rows (fun r hr => (hw r hr).1))
  · intro r hr
    obtain ⟨q0, h0⟩ := (hw r hr).2.2 0 (by omega)
    obtain ⟨q1, h1⟩ := (hw r hr).2.2 1 (by omega)
    obtain ⟨q2, h2⟩ := (hw r hr).2.2 2 (by omega)
    exact ⟨q0, q1, q2, by simp only [plyRow]; rw [h0, h1, h2]⟩

/-- C2 witness: a concrete PLY file with two data rows and two
interspersed blank lines parses to exactly the two literal points. -/
theorem claim_C2_ply_parsing_witness :
    parsePlyLines ("ply".toList ::
        (["comment made by anonymous".toList, "element vertex 2".toList] ++
          "end_header".toList ::
            ["".toList, "1 2 3".toList, "   ".toList, "4 5.5 60e-1".toList]))
      = [(some (.fin 1), some (.fin 2), some (.fin 3)),
         (some (.fin 4), some (.fin (11 / 2)), some (.fin 6))] := by
  have hw : ∀ r ∈ ["1 2 3".toList, "4 5.5 60e-1".toList], WellFormedRow r := by
    intro r hr
    rcases List.mem_cons.mp hr with rfl | hr'
    · refine ⟨by decide, by decide, ?_⟩
      intro k hk
      interval_cases k
      · exact ⟨1, by with_unfolding_all rfl⟩
      · exact ⟨2, by with_unfolding_all rfl⟩
      · exact ⟨3, by with_unfolding_all rfl⟩
    · rcases List.mem_singleton.mp hr' with rfl
      refine ⟨by decide, by decide, ?_⟩
      intro k hk
      interval_cases k
      · exact ⟨4, by with_unfolding_all rfl⟩
      · exact ⟨11 / 2, by with_unfolding_all rfl⟩
      · exact ⟨6, by with_unfolding_all rfl⟩
  have h := claim_C2_ply_parsing ("ply".toList)
    ["comment made by anonymous".toList, "element vertex 2".toList]
    ["".toList, "1 2 3".toList, "   ".toList, "4 5.5 60e-1".toList]
    ["1 2 3".toList, "4 5.5 60e-1".toList] 2
    (by decide) (by decide)
    (.blank (by decide) (.row (by decide) (.blank (by decide) (.row (by decide) .nil))))
    rfl hw
  rw [h.1]
  with_unfolding_all rfl

/-- C3 witness: the amended statement applied at 3 concrete points,
with the membership premise discharged at the head triangle of the
concretely evaluated mesh. -/
theorem claim_C3_three_point_mesh_witness :
    (createSimpleMeshFromPoints [((0 : ℚ), (0 : ℚ), (0 : ℚ)), (1, 0, 0), (0, 1, 0)] 12).length
        = 3 ∧
      (((0 : ℚ), (0 : ℚ), (0 : ℚ)) : Pt) ∈
        [(((0 : ℚ), (0 : ℚ), (0 : ℚ)) : Pt), (1, 0, 0), (0, 1, 0)] := by
  have h := claim_C3_three_point_mesh ((0 : ℚ), (0 : ℚ), (0 : ℚ)) (1, 0, 0) (0, 1, 0)
  have hmesh : createSimpleMeshFromPoints [((0 : ℚ), (0 : ℚ), (0 : ℚ)), (1, 0, 0), (0, 1, 0)] 12
      = [(((0 : ℚ), (0 : ℚ), (0 : ℚ)), ((1 : ℚ), (0 : ℚ), (0 : ℚ)), ((0 : ℚ), (1 : ℚ), (0 : ℚ))),
         (((1 : ℚ), (0 : ℚ), (0 : ℚ)), ((0 : ℚ), (0 : ℚ), (0 : ℚ)), ((0 : ℚ), (1 : ℚ), (0 : ℚ))),
         (((0 : ℚ), (1 : ℚ), (0 : ℚ)), ((0 : ℚ), (0 : ℚ), (0 : ℚ)), ((1 : ℚ), (0 : ℚ), (0 : ℚ)))] := by
    with_unfolding_all rfl
  have hmem : ((((0 : ℚ), (0 : ℚ), (0 : ℚ)), ((1 : ℚ), (0 : ℚ), (0 : ℚ)),
      ((0 : ℚ), (1 : ℚ), (0 : ℚ))) : Tri) ∈
      createSimpleMeshFromPoints [((0 : ℚ), (0 : ℚ), (0 : ℚ)), (1, 0, 0), (0, 1, 0)] 12 := by
    rw [hmesh]
    exact List.mem_cons_self _ _
  exact ⟨h.1, (h.2 _ hmem).1⟩

/-! ## Claim C4 -/

lemma noNL_digitChar10 (n : ℕ) (hn : n < 10) : digitChar10 n ≠ '\n' ∧ digitChar10 n ≠ '\r' := by
  interval_cases n <;> exact ⟨by decide, by decide⟩

lemma noNL_natToDec (n : ℕ) : ∀ c ∈ natToDec n, c ≠ '\n' ∧ c ≠ '\r' := by
  induction n using Nat.strong_induction_on with
  | _ n ih =>
    intro c hc
    rw [natToDec] at hc
    by_cases h : n < 10
    · rw [dif_pos h] at hc
      rcases List.mem_singleton.mp hc with rfl
      exact noNL_digitChar10 n h
    · rw [dif_neg h] at hc
      rcases List.mem_append.mp hc with h' | h'
      · exact ih (n / 10) (Nat.div_lt_self (by omega) (by omega)) c h'
      · rcases List.mem_singleton.mp h' with rfl
        exact noNL_digitChar10 _ (Nat.mod_lt _ (by omega))

lemma noNL_toFixed6 (q : ℚ) : ∀ c ∈ toFixed6 q, c ≠ '\n' ∧ c ≠ '\r' := by
  intro c hc
  simp only [toFixed6, List.mem_append, List.mem_cons, List.mem_singleton] at hc
  rcases hc with (h | h) | h | h
  · split at h
    · rcases List.mem_singleton.mp h with rfl
      exact ⟨by decide, by decide⟩
    · simp at h
  · exact noNL_natToDec _ c h
  · rcases h with rfl
    exact ⟨by decide, by decide⟩
  · rcases h with h' | h'
    · rcases List.mem_replicate.mp h' with ⟨-, rfl⟩
      exact ⟨by decide, by decide⟩
    · exact noNL_natToDec _ c h'

lemma splitLines_cons_ne (c : Char) (t : Str) (h1 : c ≠ '\n') (h2 : c ≠ '\r') :
    splitLines (c :: t) = consHead c (splitLines t) := by
  rw [splitLines.eq_def]
  split
  all_goals try (exfalso; simp_all; done)
  rename_i c' rest _ _ heq
  injection heq with hc' ht'
  subst hc'
  subst ht'
  rfl

lemma splitLines_append_line (xs ys : Str) (h : ∀ c ∈ xs, c ≠ '\n' ∧ c ≠ '\r') :
    splitLines (xs ++ '\n' :: ys) = xs :: splitLines ys := by
  induction xs with
  | nil => rfl
  | cons c xs ih =>
    have hc := h c (by simp)
    rw [List.cons_append, splitLines_cons_ne c _ hc.1 hc.2,
      ih (fun x hx => h x (by simp [hx]))]
    rfl

/-- C4 amended: the PLY encoder emits a fixed SEVEN-line header —
`ply`, `format ascii 1.0`, `element vertex <N>`, the three property
lines, `end_header` — followed by exactly one line per point with its 3
coordinates to 6 decimal places, space-separated, in insertion order
(plus the empty trailing segment after the final newline). -/
theorem claim_C4_ply_encoder (pts : List Pt) :
    splitLines (exportPointCloudToPLY pts) =
      ["ply".toList, "format ascii 1.0".toList,
        "element vertex ".toList ++ natToDec pts.length,
        "property float x".toList, "property float y".toList, "property float z".toList,
        "end_header".toList] ++
      pts.map (fun p => toFixed6 p.1 ++ ' ' :: toFixed6 p.2.1 ++ ' ' :: toFixed6 p.2.2) ++
      [[]] := by
  have hev : ∀ c ∈ "element vertex ".toList ++ natToDec pts.length, c ≠ '\n' ∧ c ≠ '\r' := by
    intro c hc
    rcases List.mem_append.mp hc with h | h
    · exact (by decide : ∀ x ∈ "element vertex ".toList, x ≠ '\n' ∧ x ≠ '\r') c h
    · exact noNL_natToDec _ c h
  have hbody : ∀ ps : List Pt,
      splitLines (ps.flatMap (fun p =>
          toFixed6 p.1 ++ ' ' :: toFixed6 p.2.1 ++ ' ' :: toFixed6 p.2.2 ++ ['\n']))
        = ps.map (fun p => toFixed6 p.1 ++ ' ' :: toFixed6 p.2.1 ++ ' ' :: toFixed6 p.2.2)
          ++ [[]] := by
    intro ps
    induction ps with
    | nil => rfl
    | cons p ps ih =>
      have hnl : ∀ c ∈ toFixed6 p.1 ++ ' ' :: toFixed6 p.2.1 ++ ' ' :: toFixed6 p.2.2,
          c ≠ '\n' ∧ c ≠ '\r' := by
        intro c hc
        rcases List.mem_append.mp hc with h | h
        · rcases List.mem_append.mp h with h1 | h1
          · exact noNL_toFixed6 _ c h1
          · rcases List.mem_cons.mp h1 with rfl | h2
            · exact ⟨by decide, by decide⟩
            · exact noNL_toFixed6 _ c h2
        · rcases List.mem_cons.mp h with rfl | h2
          · exact ⟨by decide, by decide⟩
          · exact noNL_toFixed6 _ c h2
      have hline : (toFixed6 p.1 ++ ' ' :: toFixed6 p.2.1 ++ ' ' :: toFixed6 p.2.2 ++ ['\n'])
          ++ ps.flatMap (fun p =>
              toFixed6 p.1 ++ ' ' :: toFixed6 p.2.1 ++ ' ' :: toFixed6 p.2.2 ++ ['\n'])
          = (toFixed6 p.1 ++ ' ' :: toFixed6 p.2.1 ++ ' ' :: toFixed6 p.2.2) ++ '\n' ::
              ps.flatMap (fun p =>
                toFixed6 p.1 ++ ' ' :: toFixed6 p.2.1 ++ ' ' :: toFixed6 p.2.2 ++ ['\n']) := by
        simp [List.append_assoc, List.cons_append, List.singleton_append]
      rw [List.flatMap_cons, hline, splitLines_append_line _ _ hnl, ih]
      rfl
  have hre : exportPointCloudToPLY pts =
      "ply".toList ++ '\n' ::
        ("format ascii 1.0".toList ++ '\n' ::
          ("element vertex ".toList ++ (natToDec pts.length ++ '\n' ::
            ("property float x".toList ++ '\n' ::
              ("property float y".toList ++ '\n' ::
                ("property float z".toList ++ '\n' ::
                  ("end_header".toList ++ '\n' ::
                    pts.flatMap (fun p =>
                      toFixed6 p.1 ++ ' ' :: toFixed6 p.2.1 ++ ' ' ::
                        toFixed6 p.2.2 ++ ['\n'])))))))) := by
    simp only [exportPointCloudToPLY, List.append_assoc]
    with_unfolding_all rfl
  rw [hre]
  rw [splitLines_append_line _ _ (by decide), splitLines_append_line _ _ (by decide)]
  rw [← List.append_assoc]
  rw [splitLines_append_line _ _ hev,
    splitLines_append_line _ _ (by decide),
    splitLines_append_line _ _ (by decide),
    splitLines_append_line _ _ (by decide),
    splitLines_append_line _ _ (by decide)]
  rw [hbody pts]
  rfl


/-- C4 counterexample: the header the encoder emits has 7 lines, not 6;
line index 5 (which a 6-line header ending in `end_header` would make
`end_header`) is `property float z`. -/
theorem claim_C4_counterexample :
    (splitLines (exportPointCloudToPLY [((1 : ℚ), 2, 3)])).getD 5 [] ≠ "end_header".toList := by
  have h : (splitLines (exportPointCloudToPLY [((1 : ℚ), 2, 3)])).getD 5 []
      = "property float z".toList := by
    with_unfolding_all rfl
  rw [h]
  decide


/-! ## Claim C5 -/

/-- C5: the PCD data loop selects coordinates by the positions of `x`,
`y`, `z` in the recorded field list (indices into the NaN-filtered
numeric token list) whenever the field list has at least 3 entries and
contains all three, and falls back to the first three numeric tokens
otherwise; in particular `FIELDS y x z` with row `1 2 3` yields the
point (2, 1, 3). -/
theorem claim_C5_pcd_field_remap :
    (∀ (fields : List Str) (l : Str) (ls : List Str) (xi yi zi : ℕ),
      jsTrim l ≠ [] →
      3 ≤ ((splitWs (jsTrim l)).filterMap jsNumber).length →
      3 ≤ fields.length →
      fields.findIdx? (· == "x".toList) = some xi →
      fields.findIdx? (· == "y".toList) = some yi →
      fields.findIdx? (· == "z".toList) = some zi →
      pcdDataLines fields (l :: ls) =
        (((splitWs (jsTrim l)).filterMap jsNumber).get? xi,
         ((splitWs (jsTrim l)).filterMap jsNumber).get? yi,
         ((splitWs (jsTrim l)).filterMap jsNumber).get? zi) :: pcdDataLines fields ls) ∧
    (∀ (fields : List Str) (l : Str) (ls : List Str),
      jsTrim l ≠ [] →
      3 ≤ ((splitWs (jsTrim l)).filterMap jsNumber).length →
      (fields.length < 3 ∨ fields.findIdx? (· == "x".toList) = none ∨
        fields.findIdx? (· == "y".toList) = none ∨
        fields.findIdx? (· == "z".toList) = none) →
      pcdDataLines fields (l :: ls) =
        (((splitWs (jsTrim l)).filterMap jsNumber).get? 0,
         ((splitWs (jsTrim l)).filterMap jsNumber).get? 1,
         ((splitWs (jsTrim l)).filterMap jsNumber).get? 2) :: pcdDataLines fields ls) ∧
    parsePcdAscii ("# .PCD v0.7\nFIELDS y x z\nDATA ascii\n1 2 3".toList)
      = [(some (.fin 2), some (.fin 1), some (.fin 3))] := by
  refine ⟨?_, ?_, by with_unfolding_all rfl⟩
  · intro fields l ls xi yi zi hbl h3 hf hx hy hz
    simp only [pcdDataLines, if_neg hbl, if_neg (not_lt.mpr h3), hx, hy, hz, if_pos hf]
  · intro fields l ls hbl h3 hcase
    rcases hcase with hlt | hn | hn | hn
    · simp only [pcdDataLines, if_neg hbl, if_neg (not_lt.mpr h3),
        if_neg (by omega : ¬3 ≤ fields.length)]
    · simp only [pcdDataLines, if_neg hbl, if_neg (not_lt.mpr h3), hn]
      split <;> rfl
    · simp only [pcdDataLines, if_neg hbl, if_neg (not_lt.mpr h3), hn]
      split
      · cases hX : fields.findIdx? (· == "x".toList) <;> rfl
      · rfl
    · simp only [pcdDataLines, if_neg hbl, if_neg (not_lt.mpr h3), hn]
      split
      · cases hX : fields.findIdx? (· == "x".toList)
        · rfl
        · cases hY : fields.findIdx? (· == "y".toList) <;> rfl
      · rfl

/-- C5 witness: the remap branch applied at `FIELDS y x z` and the
data row `1 2 3`. -/
theorem claim_C5_pcd_field_remap_witness :
    pcdDataLines ["y".toList, "x".toList, "z".toList] ["1 2 3".toList]
      = [(some (.fin 2), some (.fin 1), some (.fin 3))] := by
  have h := claim_C5_pcd_field_remap.1 ["y".toList, "x".toList, "z".toList]
    ("1 2 3".toList) [] 1 0 2
    (by decide) (by decide) (by decide) (by decide) (by decide) (by decide)
  rw [h]
  with_unfolding_all rfl



/-! ## Claim C6 -/

/-- C6: extents are divided by 1000 exactly when the longest extent
exceeds 5 (millimeter inference) and by 1 otherwise; a cloud with
extents (0.5, 0.05, 0.05) classifies as `forearm` (threshold-table base
confidence 0.8), and a cloud with extents (500, 50, 50) reaches the
same `forearm` label through the millimeter branch. -/
theorem claim_C6_classifier_forearm :
    (∀ (p : Pt) (rest : List Pt), bboxExtents p rest = (1 / 2, 1 / 20, 1 / 20) →
      (classifyPointCloud (p :: rest)).label = "forearm") ∧
    (∀ (p : Pt) (rest : List Pt), bboxExtents p rest = (500, 50, 50) →
      (classifyPointCloud (p :: rest)).label = "forearm") ∧
    limbThresholds ((1 / 2) / 1) = ("forearm", 8 / 10) ∧
    limbThresholds (500 / 1000) = ("forearm", 8 / 10) := by
  refine ⟨?_, ?_, by norm_num [limbThresholds], by norm_num [limbThresholds]⟩
  · intro p rest he
    simp only [classifyPointCloud, he]
    norm_num [limbThresholds]
  · intro p rest he
    simp only [classifyPointCloud, he]
    norm_num [limbThresholds]

/-- C6 witness: concrete two-point clouds realising the two extent
triples. -/
theorem claim_C6_classifier_forearm_witness :
    (classifyPointCloud [((0 : ℚ), (0 : ℚ), (0 : ℚ)), (1 / 2, 1 / 20, 1 / 20)]).label
        = "forearm" ∧
      (classifyPointCloud [((0 : ℚ), (0 : ℚ), (0 : ℚ)), (500, 50, 50)]).label
        = "forearm" := by
  constructor
  · exact claim_C6_classifier_forearm.1 ((0 : ℚ), (0 : ℚ), (0 : ℚ)) [(1 / 2, 1 / 20, 1 / 20)]
      (by with_unfolding_all rfl)
  · exact claim_C6_classifier_forearm.2.1 ((0 : ℚ), (0 : ℚ), (0 : ℚ)) [(500, 50, 50)]
      (by with_unfolding_all rfl)



/-! ## Claim C7 -/

lemma vdigitMatch_v (c2 : Char) (t : Str) : vdigitMatch ('v' :: c2 :: t) = isDigitC c2 := rfl

lemma vdigitMatch_single (c : Char) : vdigitMatch [c] = isDigitC c := by
  rw [vdigitMatch.eq_def]
  split
  · rename_i heq
    simp at heq
  · rename_i heq
    injection heq with h1 h2
    subst h1
    rfl
  · rename_i heq
    simp at heq

lemma vdigitMatch_cons2 (c c2 : Char) (t : Str) (h : c ≠ 'v') :
    vdigitMatch (c :: c2 :: t) = isDigitC c := by
  rw [vdigitMatch.eq_def]
  split
  · rename_i heq
    exfalso
    injection heq with h1 _
    exact h h1
  · rename_i heq
    injection heq with h1 h2
    subst h1
    rfl
  · rename_i heq
    simp at heq

lemma vdigit_iff (l : Str) :
    vdigitMatch l = true ↔
      ∃ v d b, (v = [] ∨ v = ['v']) ∧ isDigitC d = true ∧ l = v ++ d :: b := by
  constructor
  · intro h
    rcases l with _ | ⟨c, _ | ⟨c2, t⟩⟩
    · simp [vdigitMatch] at h
    · rw [vdigitMatch_single] at h
      exact ⟨[], c, [], .inl rfl, h, rfl⟩
    · by_cases hcv : c = 'v'
      · subst hcv
        rw [vdigitMatch_v] at h
        exact ⟨['v'], c2, t, .inr rfl, h, rfl⟩
      · rw [vdigitMatch_cons2 c c2 t hcv] at h
        exact ⟨[], c, c2 :: t, .inl rfl, h, rfl⟩
  · rintro ⟨v, d, b, hv, hd, rfl⟩
    rcases hv with rfl | rfl
    · rcases b with _ | ⟨b1, bt⟩
      · rw [List.nil_append, vdigitMatch_single]
        exact hd
      · by_cases hdv : d = 'v'
        · subst hdv
          exact absurd hd (by decide)
        · rw [List.nil_append, vdigitMatch_cons2 d b1 bt hdv]
          exact hd
    · rw [List.cons_append, List.nil_append, vdigitMatch_v]
      exact hd

lemma wsThen_iff (l : Str) :
    wsThenVDigit l = true ↔
      ∃ ws rest, ws ≠ [] ∧ (∀ c ∈ ws, isJsWs c = true) ∧ vdigitMatch rest = true ∧
        l = ws ++ rest := by
  induction l with
  | nil =>
    simp only [wsThenVDigit, Bool.false_eq_true, false_iff]
    rintro ⟨ws, rest, hne, -, -, habs⟩
    exact hne (List.append_eq_nil.mp habs.symm).1
  | cons c t ih =>
    show (isJsWs c && (vdigitMatch t || wsThenVDigit t)) = true ↔ _
    rw [Bool.and_eq_true, Bool.or_eq_true]
    constructor
    · rintro ⟨hws, hv | hw⟩
      · exact ⟨[c], t, by simp, by simpa using hws, hv, rfl⟩
      · obtain ⟨ws, rest, hne, hall, hv, rfl⟩ := ih.mp hw
        exact ⟨c :: ws, rest, by simp, by
          intro x hx
          rcases List.mem_cons.mp hx with rfl | hx'
          · exact hws
          · exact hall x hx', hv, by rw [List.cons_append]⟩
    · rintro ⟨ws, rest, hne, hall, hv, heq⟩
      rcases ws with _ | ⟨w, ws'⟩
      · exact absurd rfl hne
      rw [List.cons_append] at heq
      injection heq with hc ht
      subst hc
      refine ⟨hall c (by simp), ?_⟩
      rcases ws' with _ | ⟨w2, ws''⟩
      · rw [List.nil_append] at ht
        subst ht
        exact Or.inl hv
      · refine Or.inr (ih.mpr ⟨w2 :: ws'', rest, by simp, ?_, hv, ht⟩)
        intro x hx
        exact hall x (List.mem_cons.mpr (Or.inr hx))

lemma pcdPatternAt_iff (l : Str) :
    pcdPatternAt l = true ↔
      ∃ rest, wsThenVDigit rest = true ∧ l = 'p' :: 'c' :: 'd' :: rest := by
  constructor
  · intro h
    rw [pcdPatternAt.eq_def] at h
    split at h
    · rename_i x rest
      exact ⟨rest, h, rfl⟩
    · simp at h
  · rintro ⟨rest, hv, rfl⟩
    exact hv

lemma pcdSearch_iff (l : Str) :
    pcdSearch l = true ↔
      ∃ a rest, wsThenVDigit rest = true ∧ l = a ++ 'p' :: 'c' :: 'd' :: rest := by
  induction l with
  | nil =>
    simp only [pcdSearch, Bool.false_eq_true, false_iff]
    rintro ⟨a, rest, -, habs⟩
    simp at habs
  | cons c t ih =>
    show (pcdPatternAt (c :: t) || pcdSearch t) = true ↔ _
    rw [Bool.or_eq_true]
    constructor
    · rintro (h | h)
      · obtain ⟨rest, hv, heq⟩ := (pcdPatternAt_iff _).mp h
        exact ⟨[], rest, hv, by rw [List.nil_append]; exact heq⟩
      · obtain ⟨a, rest, hv, rfl⟩ := ih.mp h
        exact ⟨c :: a, rest, hv, by rw [List.cons_append]⟩
    · rintro ⟨a, rest, hv, heq⟩
      rcases a with _ | ⟨a0, a'⟩
      · rw [List.nil_append] at heq
        exact Or.inl (by rw [heq]; exact (pcdPatternAt_iff _).mpr ⟨rest, hv, rfl⟩)
      · rw [List.cons_append] at heq
        injection heq with hc ht
        exact Or.inr (ih.mpr ⟨a', rest, hv, ht⟩)

lemma pcdSearch_iff_pattern (l : Str) : pcdSearch l = true ↔ PcdPattern l := by
  rw [pcdSearch_iff]
  constructor
  · rintro ⟨a, rest, hv, rfl⟩
    obtain ⟨ws, rest2, hne, hws, hvd, rfl⟩ := (wsThen_iff rest).mp hv
    obtain ⟨v, d, b, hvv, hd, rfl⟩ := (vdigit_iff rest2).mp hvd
    exact ⟨a, ws, v, d, b, by simp [List.append_assoc], hne, hws, hvv, hd⟩
  · rintro ⟨a, ws, v, d, b, heq, hne, hws, hvv, hd⟩
    refine ⟨a, ws ++ (v ++ d :: b),
      (wsThen_iff _).mpr ⟨ws, v ++ d :: b, hne, hws,
        (vdigit_iff _).mpr ⟨v, d, b, hvv, hd, rfl⟩, rfl⟩, ?_⟩
    rw [heq]
    simp [List.append_assoc]

/-- C7: the detector selects PLY exactly when the trimmed text starts
with `ply`; otherwise PCD exactly when the lower-cased trimmed text
starts with `# .pcd` or the first 200 characters (lower-cased) contain
`pcd`, whitespace, an optional `v` and a digit; otherwise the XYZ
fallback. -/
theorem claim_C7_format_detection (text : Str) :
    (detectFormat text = .PLY ↔ "ply".toList <+: jsTrim text) ∧
    (detectFormat text = .PCD ↔
      (¬ "ply".toList <+: jsTrim text ∧
        ("# .pcd".toList <+: jsLower (jsTrim text) ∨
          PcdPattern (jsLower ((jsTrim text).take 200))))) ∧
    (detectFormat text = .XYZFallback ↔
      (¬ "ply".toList <+: jsTrim text ∧
        ¬ "# .pcd".toList <+: jsLower (jsTrim text) ∧
        ¬ PcdPattern (jsLower ((jsTrim text).take 200)))) := by
  have hs := pcdSearch_iff_pattern (jsLower ((jsTrim text).take 200))
  rcases h1 : "ply".toList.isPrefixOf (jsTrim text) with - | -
  · have h1p : ¬ "ply".toList <+: jsTrim text := fun hc => by
      have h' := List.isPrefixOf_iff_prefix.mpr hc
      rw [h1] at h'
      exact Bool.noConfusion h'
    rcases h2 : "# .pcd".toList.isPrefixOf (jsLower (jsTrim text)) with - | -
    · have h2p : ¬ "# .pcd".toList <+: jsLower (jsTrim text) := fun hc => by
        have h' := List.isPrefixOf_iff_prefix.mpr hc
        rw [h2] at h'
        exact Bool.noConfusion h'
      rcases h3 : pcdSearch (jsLower ((jsTrim text).take 200)) with - | -
      · have hp : ¬ PcdPattern (jsLower ((jsTrim text).take 200)) := by
          rw [← hs, h3]; simp
        simp only [String.toList] at h1p h2p
        rw [detectFormat.eq_def]
        simp [h1, h2, h3, h1p, h2p, hp]
      · have hp : PcdPattern (jsLower ((jsTrim text).take 200)) := hs.mp h3
        simp only [String.toList] at h1p h2p
        rw [detectFormat.eq_def]
        simp [h1, h2, h3, h1p, h2p, hp]
    · have h2p : "# .pcd".toList <+: jsLower (jsTrim text) :=
        List.isPrefixOf_iff_prefix.mp h2
      simp only [String.toList] at h1p h2p
      rw [detectFormat.eq_def]
      simp [h1, h2, h1p, h2p]
  · have h1p : "ply".toList <+: jsTrim text := List.isPrefixOf_iff_prefix.mp h1
    simp only [String.toList] at h1p
    rw [detectFormat.eq_def]
    simp [h1, h1p]

/-- C7 witness: one concrete input per branch of the detection rule. -/
theorem claim_C7_format_detection_witness :
    detectFormat ("# .PCD v0.7\nDATA ascii".toList) = .PCD ∧
    detectFormat ("ply\nxxx".toList) = .PLY ∧
    detectFormat ("1 2 3".toList) = .XYZFallback := by
  refine ⟨(claim_C7_format_detection _).2.1.mpr ⟨by decide, Or.inl (by decide)⟩,
    (claim_C7_format_detection _).1.mpr (by decide),
    (claim_C7_format_detection _).2.2.mpr ⟨by decide, by decide, ?_⟩⟩
  rw [← pcdSearch_iff_pattern]
  decide


/-! ## Claim C8 -/

/-- C8: the pipeline reports `ParseEmpty` exactly when the parser
selected by detection produced an empty point list, and otherwise hands
the (nonempty) points on; and each parser skips malformed lines without
aborting: the XYZ loop skips blank/comment/alpha-headed/short lines,
the PCD data loop skips blank and short lines, and the PLY loop skips
blanks without consuming a count slot while a short row consumes its
slot and emits nothing. -/
theorem claim_C8_best_effort (text : Str) :
    (readPointCloudFile text = .error .ParseEmpty ↔
      parseByKind (detectFormat text) text = []) ∧
    (∀ pts, readPointCloudFile text = .ok pts →
      pts = parseByKind (detectFormat text) text ∧ pts ≠ []) ∧
    (∀ l ls, (jsTrim l = [] ∨ (jsTrim l).headD ' ' = '#' ∨
        hasAlpha ((splitWs (jsTrim l)).getD 0 []) = true ∨
        ((splitWs (jsTrim l)).filterMap jsNumber).length < 3) →
      parseXyzLines (l :: ls) = parseXyzLines ls) ∧
    (∀ fields l ls, (jsTrim l = [] ∨ ((splitWs (jsTrim l)).filterMap jsNumber).length < 3) →
      pcdDataLines fields (l :: ls) = pcdDataLines fields ls) ∧
    (∀ c l ls, jsTrim l = [] → plyReadRows c (l :: ls) = plyReadRows c ls) ∧
    (∀ c l ls, jsTrim l ≠ [] → (splitWs (jsTrim l)).length < 3 →
      plyReadRows (c + 1) (l :: ls) = plyReadRows c ls) := by
  refine ⟨?_, ?_, ?_, ?_, ?_, ?_⟩
  · rw [readPointCloudFile.eq_def, detectFormat.eq_def]
    rcases h1 : "ply".toList.isPrefixOf (jsTrim text) with - | -
    · rcases h2 : ("# .pcd".toList.isPrefixOf (jsLower (jsTrim text)) ||
          pcdSearch (jsLower ((jsTrim text).take 200))) with - | -
      · simp only [h1, h2, Bool.false_eq_true, reduceIte, parseByKind]
        by_cases hres : parseXyzFallback text = [] <;> simp [hres]
      · simp only [h1, h2, Bool.false_eq_true, reduceIte, parseByKind]
        by_cases hres : parsePcdAscii text = [] <;> simp [hres]
    · simp only [h1, reduceIte, parseByKind]
      by_cases hres : parsePlyAscii text = [] <;> simp [hres]
  · intro pts
    rw [readPointCloudFile.eq_def, detectFormat.eq_def]
    rcases h1 : "ply".toList.isPrefixOf (jsTrim text) with - | -
    · rcases h2 : ("# .pcd".toList.isPrefixOf (jsLower (jsTrim text)) ||
          pcdSearch (jsLower ((jsTrim text).take 200))) with - | -
      · simp only [h1, h2, Bool.false_eq_true, reduceIte, parseByKind]
        by_cases hres : parseXyzFallback text = [] <;> simp [hres]
        rintro rfl
        exact ⟨rfl, hres⟩
      · simp only [h1, h2, Bool.false_eq_true, reduceIte, parseByKind]
        by_cases hres : parsePcdAscii text = [] <;> simp [hres]
        rintro rfl
        exact ⟨rfl, hres⟩
    · simp only [h1, reduceIte, parseByKind]
      by_cases hres : parsePlyAscii text = [] <;> simp [hres]
      rintro rfl
      exact ⟨rfl, hres⟩
  · intro l ls hc
    by_cases hbl : jsTrim l = []
    · simp only [parseXyzLines, hbl, reduceIte]
    rcases hc with h | h | h | h
    · exact absurd h hbl
    · simp only [parseXyzLines, if_neg hbl, if_pos (Or.inl h)]
    · simp only [parseXyzLines, if_neg hbl, if_pos (Or.inr (by exact_mod_cast h))]
    · simp only [parseXyzLines, if_neg hbl, if_neg (not_le.mpr h), ite_self]
  · intro fields l ls hc
    by_cases hbl : jsTrim l = []
    · simp only [pcdDataLines, hbl, reduceIte]
    rcases hc with h | h
    · exact absurd h hbl
    · simp only [pcdDataLines, if_neg hbl, if_pos h]
  · intro c l ls hb
    rcases c with - | c
    · simp only [plyReadRows]
    · simp only [plyReadRows, hb, reduceIte]
  · intro c l ls hb h3
    simp only [plyReadRows, if_neg hb, if_neg (not_le.mpr h3), reduceIte]

/-- C8 witness: a file with no parseable rows errors with `ParseEmpty`;
a malformed line contributes nothing to the XYZ parse. -/
theorem claim_C8_best_effort_witness :
    readPointCloudFile ("zzz".toList) = .error .ParseEmpty ∧
    parseXyzLines ["not a point".toList, "1 2 3".toList]
      = parseXyzLines ["1 2 3".toList] := by
  refine ⟨((claim_C8_best_effort ("zzz".toList)).1).mpr (by with_unfolding_all rfl), ?_⟩
  exact (claim_C8_best_effort ("zzz".toList)).2.2.1 ("not a point".toList) ["1 2 3".toList]
    (Or.inr (Or.inr (Or.inl (by decide))))


/-! ## Claim C9 -/

lemma limbThresholds_base_bounds (L : ℚ) :
    45 / 100 ≤ (limbThresholds L).2 ∧ (limbThresholds L).2 ≤ 8 / 10 := by
  unfold limbThresholds
  split_ifs <;> norm_num

lemma ratioAdjust_bounds (b w L : ℚ) (h1 : 45 / 100 ≤ b) (h2 : b ≤ 8 / 10) :
    1 / 4 ≤ ratioAdjust b w L ∧ ratioAdjust b w L ≤ 1 := by
  by_cases hL : 0 < L
  · by_cases hr1 : w / L < 25 / 100
    · by_cases hr2 : 6 / 10 < w / L
      · exact absurd hr2 (by linarith)
      · simp only [ratioAdjust, if_pos hL, if_pos hr1, if_neg hr2]
        exact ⟨le_min (by norm_num) (by linarith), min_le_left _ _⟩
    · by_cases hr2 : 6 / 10 < w / L
      · simp only [ratioAdjust, if_pos hL, if_neg hr1, if_pos hr2]
        exact ⟨le_min (by norm_num) (by linarith), min_le_left _ _⟩
      · simp only [ratioAdjust, if_pos hL, if_neg hr1, if_neg hr2]
        exact ⟨by linarith, by linarith⟩
  · simp only [ratioAdjust, if_neg hL]
    exact ⟨by linarith, by linarith⟩

lemma densityBoost_bounds (n : ℕ) :
    0 ≤ min ((15 : ℝ) / 100) (Real.logb 10 (max 1 (n : ℝ)) / 10) ∧
      min ((15 : ℝ) / 100) (Real.logb 10 (max 1 (n : ℝ)) / 10) ≤ 15 / 100 :=
  ⟨le_min (by norm_num)
      (div_nonneg (Real.logb_nonneg (by norm_num) (le_max_left 1 _)) (by norm_num)),
    min_le_left _ _⟩

lemma jsToFixedNum_bounds (x : ℝ) (h1 : 1 / 4 ≤ x) (h2 : x ≤ 1) :
    1 / 4 ≤ jsToFixedNum 2 x ∧ jsToFixedNum 2 x ≤ 1 := by
  unfold jsToFixedNum
  rw [if_neg (by linarith : ¬ x < 0), abs_of_nonneg (by linarith), one_mul]
  have hlow : (25 : ℤ) ≤ ⌊x * 10 ^ 2 + 1 / 2⌋ := by
    calc (25 : ℤ) = ⌊(25.5 : ℝ)⌋ := by norm_num
      _ ≤ ⌊x * 10 ^ 2 + 1 / 2⌋ := Int.floor_le_floor (by norm_num; linarith)
  have hhigh : ⌊x * 10 ^ 2 + 1 / 2⌋ ≤ 100 := by
    calc ⌊x * 10 ^ 2 + 1 / 2⌋ ≤ ⌊(100.5 : ℝ)⌋ := Int.floor_le_floor (by norm_num; linarith)
      _ = 100 := by norm_num
  have hlowR : (25 : ℝ) ≤ (⌊x * 10 ^ 2 + 1 / 2⌋ : ℝ) := by exact_mod_cast hlow
  have hhighR : (⌊x * 10 ^ 2 + 1 / 2⌋ : ℝ) ≤ 100 := by exact_mod_cast hhigh
  constructor
  · rw [le_div_iff₀ (by norm_num : (0 : ℝ) < 10 ^ 2)]
    linarith
  · rw [div_le_one (by norm_num : (0 : ℝ) < 10 ^ 2)]
    linarith

/-- C9: the classifier confidence always lies in [0, 1]; the empty
cloud returns exactly 0; a nonempty cloud returns at least 0.25 (base
at least 0.45, the two ratio branches are mutually exclusive so at
most 0.2 is subtracted once, the density boost is nonnegative and
every addition is capped at 1, and 2-decimal rounding preserves the
bounds). -/
theorem claim_C9_confidence_bounds (pts : List Pt) :
    0 ≤ (classifyPointCloud pts).confidence ∧
    (classifyPointCloud pts).confidence ≤ 1 ∧
    (pts = [] → (classifyPointCloud pts).confidence = 0) ∧
    (pts ≠ [] → 1 / 4 ≤ (classifyPointCloud pts).confidence) := by
  rcases pts with - | ⟨p, rest⟩
  · exact ⟨by norm_num [classifyPointCloud], by norm_num [classifyPointCloud],
      by norm_num [classifyPointCloud], by norm_num [classifyPointCloud]⟩
  · simp only [classifyPointCloud]
    set e := bboxExtents p rest with he
    set longest := max e.1 (max e.2.1 e.2.2) with hlong
    set scale : ℚ := if 5 < longest then 1000 else 1 with hscale
    set L := longest / scale with hLdef
    set w := min e.1 (min e.2.1 e.2.2) / scale with hwdef
    set b := (limbThresholds L).2 with hbdef
    set c1 := ratioAdjust b w L with hc1def
    set boost := min ((15 : ℝ) / 100)
      (Real.logb 10 (max 1 ((p :: rest).length : ℝ)) / 10) with hboostdef
    have hb := limbThresholds_base_bounds L
    have hra := ratioAdjust_bounds b w L hb.1 hb.2
    have hdb := densityBoost_bounds (p :: rest).length
    have hra1 : 1 / 4 ≤ c1 := by rw [hc1def]; exact hra.1
    have hra2 : c1 ≤ 1 := by rw [hc1def]; exact hra.2
    have hcast : (1 / 4 : ℝ) ≤ (c1 : ℝ) := by
      have h := (Rat.cast_le (K := ℝ)).mpr hra1
      push_cast at h
      exact h
    have hcast2 : (c1 : ℝ) ≤ 1 := by
      have h := (Rat.cast_le (K := ℝ)).mpr hra2
      push_cast at h
      exact h
    have h1 : 1 / 4 ≤ min (1 : ℝ) ((c1 : ℝ) + boost) :=
      le_min (by norm_num) (by rw [hboostdef]; linarith [hdb.1])
    have h2 : min (1 : ℝ) ((c1 : ℝ) + boost) ≤ 1 := min_le_left _ _
    have hfin := jsToFixedNum_bounds _ h1 h2
    exact ⟨by linarith [hfin.1], hfin.2, by simp, fun _ => hfin.1⟩

/-- C9 witness: the bound theorem applied at the empty cloud and at a
one-point cloud. -/
theorem claim_C9_confidence_bounds_witness :
    (classifyPointCloud ([] : List Pt)).confidence = 0 ∧
    1 / 4 ≤ (classifyPointCloud [((0 : ℚ), (0 : ℚ), (0 : ℚ))]).confidence :=
  ⟨(claim_C9_confidence_bounds []).2.2.1 rfl,
   (claim_C9_confidence_bounds [((0 : ℚ), (0 : ℚ), (0 : ℚ))]).2.2.2 (by simp)⟩


end LiDAR
